import Mathlib

/-!
# Verification of the configuration-space analyzer (`configurable_system.py`)

This file embeds the core of `src/code/configurable_system.py` in Lean 4 and
settles the frozen claims C1..C10 about it.

The program analyzes a CNF feature model with a reduced ordered binary decision
diagram (BDD), provided by the external OxiDD service.  The spec treats the
diagram operations (`&`, `|`, `~`, `satisfiable`, `sat_count`, `node_count`,
cofactors, structural equality with the constant `false`) as external
primitives; we model them here by the textbook reduced-ordered-BDD
implementation over an explicit tree type, with levels equal to 0-based
variable indices (the program's default order).  Everything else — the DIMACS
reader `parse_dimacs`, the variable-order assembly, `_build_bdd`, the uniform
sampler `_sample_one_uniform`, the sampling-collection loop of
`report_iii_urs_ratio`, the pairwise-interaction count of
`report_iv_pairwise_interactions` and the greedy cover loop of
`report_v_pairwise_cover_size` — is translated line by line from the source.
-/

/-- A (not necessarily shared) binary decision diagram.  `node L lo hi` tests
the variable at level `L`: `lo` is the false-cofactor, `hi` the true-cofactor.
Levels coincide with 0-based variable indices, the program's default order. -/
inductive BDD where
  | leaf (b : Bool)
  | node (L : Nat) (lo hi : BDD)
deriving DecidableEq, Repr

namespace BDD

/-- Semantics: evaluate the diagram under a total assignment. -/
def eval : BDD → (Nat → Bool) → Bool
  | leaf b, _ => b
  | node L lo hi, a => if a L then eval hi a else eval lo a

/-- The external `satisfiable()` primitive: some path reaches the true leaf. -/
def satisfiable : BDD → Bool
  | leaf b => b
  | node _ lo hi => satisfiable lo || satisfiable hi

/-- The external `sat_count(k)` primitive, in the form the program uses it:
`sat_count N ℓ b` is the weighted model count of `b` over the variables at
levels `ℓ, ℓ+1, …, N-1` (the program always calls it with the number of
remaining variables `N - ℓ`, see lines 73 and 97-99 of the source). -/
def sat_count (N : Nat) : Nat → BDD → Nat
  | ℓ, leaf true => 2 ^ (N - ℓ)
  | _, leaf false => 0
  | ℓ, node L lo hi => 2 ^ (L - ℓ) * (sat_count N (L + 1) lo + sat_count N (L + 1) hi)

/-- Smart node constructor of the reduced representation: the external service
never creates a node whose two children are identical. -/
def mk (L : Nat) (lo hi : BDD) : BDD :=
  if lo = hi then lo else node L lo hi

/-- The external negation primitive `~`. -/
def bnot : BDD → BDD
  | leaf b => leaf !b
  | node L lo hi => node L (bnot lo) (bnot hi)

/-- The external conjunction primitive `&` (standard `apply` recursion, written
as a structural recursion on the first diagram with an inner structural
recursion `go` on the second, so that it evaluates by reduction). -/
def band : BDD → BDD → BDD
  | leaf b => fun g => if b then g else leaf false
  | node L1 lo1 hi1 => go L1 lo1 hi1 (band lo1) (band hi1)
where
  /-- `go L1 lo1 hi1 (band lo1) (band hi1) g` computes
  `band (node L1 lo1 hi1) g`. -/
  go (L1 : Nat) (lo1 hi1 : BDD) (fl fh : BDD → BDD) : BDD → BDD
    | leaf b => if b then node L1 lo1 hi1 else leaf false
    | node L2 lo2 hi2 =>
      if L1 = L2 then
        mk L1 (fl lo2) (fh hi2)
      else if L1 < L2 then
        mk L1 (fl (node L2 lo2 hi2)) (fh (node L2 lo2 hi2))
      else
        mk L2 (go L1 lo1 hi1 fl fh lo2) (go L1 lo1 hi1 fl fh hi2)

/-- The external disjunction primitive `|` (same recursion scheme). -/
def bor : BDD → BDD → BDD
  | leaf b => fun g => if b then leaf true else g
  | node L1 lo1 hi1 => go L1 lo1 hi1 (bor lo1) (bor hi1)
where
  /-- `go L1 lo1 hi1 (bor lo1) (bor hi1) g` computes `bor (node L1 lo1 hi1) g`. -/
  go (L1 : Nat) (lo1 hi1 : BDD) (fl fh : BDD → BDD) : BDD → BDD
    | leaf b => if b then leaf true else node L1 lo1 hi1
    | node L2 lo2 hi2 =>
      if L1 = L2 then
        mk L1 (fl lo2) (fh hi2)
      else if L1 < L2 then
        mk L1 (fl (node L2 lo2 hi2)) (fh (node L2 lo2 hi2))
      else
        mk L2 (go L1 lo1 hi1 fl fh lo2) (go L1 lo1 hi1 fl fh hi2)

/-- `manager.var(i)` of the external service: the single-variable function. -/
def varB (i : Nat) : BDD := node i (leaf false) (leaf true)

/-- All levels of `b` lie in `[ℓ, N)` and strictly increase downward:
the ordering invariant every diagram owned by the manager satisfies. -/
def orderedB (ℓ N : Nat) : BDD → Bool
  | leaf _ => true
  | node L lo hi =>
    decide (ℓ ≤ L) && decide (L < N) && orderedB (L + 1) N lo && orderedB (L + 1) N hi

/-- No node has two identical children: the reducedness invariant of the
canonical representation (`mk` enforces it). -/
def reducedB : BDD → Bool
  | leaf _ => true
  | node _ lo hi => decide (lo ≠ hi) && reducedB lo && reducedB hi

/-- The external `node_count()` primitive: number of distinct sub-functions
reachable from the root (the size of the hash-consed graph). -/
def node_count (b : BDD) : Nat :=
  (collect b).dedup.length
where
  collect : BDD → List BDD
    | leaf b => [leaf b]
    | node L lo hi => node L lo hi :: (collect lo ++ collect hi)

end BDD

open BDD

/-! ## The CNF loader (`parse_dimacs`, source lines 15-30)

The file is modelled as its list of lines, each line as its list of
characters (the source iterates `for line in f`); space is the whitespace
character of the modelled inputs.  A Python `ValueError`/`IndexError`
escaping `parse_dimacs` — a malformed `p cnf` header or a malformed `c vo`
token, both outside every `try` block — is modelled as `Except.error`.
The string helpers (`strip`, `split`, `int`, `startswith`) are re-implemented
by structural recursion over character lists so that they evaluate by
reduction. -/

/-- A Python exception escaping `parse_dimacs`. -/
inductive PyErr where
  | valueError
  | indexError
deriving DecidableEq, Repr

/-- Parsed state of `parse_dimacs`: `num_vars, clauses, var_order`. -/
structure DimacsData where
  num_vars : Int
  clauses : List (List Int)
  var_order : Option (List Int)
deriving DecidableEq, Repr

/-- The characters of a string literal (the modelled lines contain no
non-space whitespace). -/
def strLine (s : String) : List Char := s.data

/-- Python's `str.strip()` on the modelled lines. -/
def trimL (s : List Char) : List Char :=
  ((s.dropWhile (fun c => c == ' ')).reverse.dropWhile (fun c => c == ' ')).reverse

/-- Python's `str.split()`: split on runs of whitespace, no empty tokens. -/
def pysplit (s : List Char) : List (List Char) :=
  go s []
where
  go : List Char → List Char → List (List Char)
    | [], acc => if acc = [] then [] else [acc.reverse]
    | c :: cs, acc =>
      if c == ' ' then (if acc = [] then go cs [] else acc.reverse :: go cs [])
      else go cs (c :: acc)

/-- Digit accumulation for `int(token)`. -/
def natDigits : List Char → Nat → Option Nat
  | [], acc => some acc
  | c :: cs, acc =>
    if c.isDigit then natDigits cs (acc * 10 + (c.toNat - ('0').toNat)) else none

/-- Python's `int(token)` on a whitespace-free token: an optional sign
followed by at least one digit; anything else raises `ValueError` (`none`). -/
def toIntTok : List Char → Option Int
  | [] => none
  | '-' :: rest => if rest = [] then none else (natDigits rest 0).map (fun n => -(n : Int))
  | '+' :: rest => if rest = [] then none else (natDigits rest 0).map (fun n => (n : Int))
  | s => (natDigits s 0).map (fun n => (n : Int))

/-- One iteration of the `for line in f` loop of `parse_dimacs`. -/
def parseLine (st : DimacsData) (rawLine : List Char) : Except PyErr DimacsData :=
  let line := trimL rawLine
  if line = [] || ['%'].isPrefixOf line then .ok st
  else if ['c'].isPrefixOf line then
    if (strLine "c vo ").isPrefixOf line then
      match (trimL (line.drop 5) |> pysplit).mapM toIntTok with
      | some vo => .ok { st with var_order := some vo }
      | none => .error .valueError
    else .ok st
  else if (strLine "p cnf").isPrefixOf line then
    match (pysplit line).get? 2 with
    | none => .error .indexError
    | some t =>
      match toIntTok t with
      | some n => .ok { st with num_vars := n }
      | none => .error .valueError
  else
    -- clause line: tokens equal to "0" are discarded before conversion;
    -- a ValueError from any remaining token skips the whole line (line 29)
    match ((pysplit line).filter (fun t => t ≠ ['0'])).mapM toIntTok with
    | some lits => .ok (if lits ≠ [] then { st with clauses := st.clauses ++ [lits] } else st)
    | none => .ok st

/-- `parse_dimacs` (source lines 15-30): fold the line handler over the file. -/
def parse_dimacs (lines : List (List Char)) : Except PyErr DimacsData :=
  lines.foldlM parseLine ⟨0, [], none⟩

/-! ## Variable-order assembly (`ConfigSystemAnalyzer.__init__`, lines 42-47)

`var_id_to_index` maps each 1-based id in `[1, N]` to `id - 1`; ids outside
that range are filtered out; the remaining 0-based indices not named by the
suggested order are appended in ascending order. -/

/-- `final_order + remaining_vars` of source lines 45-46. -/
def finalOrder (N : Nat) (vo : List Int) : List Nat :=
  let fo := (vo.filter (fun v => decide (1 ≤ v) && decide (v ≤ (N : Int)))).map
    (fun v => (v - 1).toNat)
  fo ++ (List.range N).filter (fun i => !(fo.contains i))

/-! ## The diagram builder (`_build_bdd`, source lines 53-65) -/

/-- The disjunction of one clause (inner loop of `_build_bdd`): literals whose
0-based index `|lit| - 1` falls outside `[0, num_vars)` are skipped. -/
def clause_bdd (N : Nat) (clause : List Int) : BDD :=
  clause.foldl
    (fun acc lit =>
      let idx : Int := |lit| - 1
      if 0 ≤ idx ∧ idx < (N : Int) then
        bor acc (if 0 < lit then varB idx.toNat else bnot (varB idx.toNat))
      else acc)
    (leaf false)

/-- `_build_bdd`: conjoin all clause diagrams into `phi`, starting from true. -/
def build_bdd (N : Nat) (clauses : List (List Int)) : BDD :=
  clauses.foldl (fun phi c => band phi (clause_bdd N c)) (leaf true)

/-! ## The uniform sampler (`_sample_one_uniform`, source lines 83-114)

Two renderings of the same loop.

`sample_one_uniform` is the operational one: the call `random.randrange(total)`
at line 103 is modelled by an oracle `rand d total` (`d` counts the draws made
so far), and the `random.randint(0, 1)` fill of the unprocessed levels at
lines 111-113 by an oracle `fill`.  The loop descends structurally, writing the
chosen bit at the tested level; levels never tested keep their `fill` value.

`samplerProb` is the distribution of that procedure: `randrange(total) <
low_count` holds with probability `low_count/total`, each skipped level is an
independent fair bit (`(1/2)` per level between `ℓ` and the tested level `L`,
and per level remaining below a true leaf). -/

/-- Descent loop of `_sample_one_uniform` under explicit random oracles. -/
def sampleGo (N : Nat) (rand : Nat → Nat → Nat) (fill : Nat → Bool) :
    Nat → BDD → Option (Nat → Bool)
  | _, leaf true => some fill
  | _, leaf false => none
  | d, node L lo hi =>
    let low_count := sat_count N (L + 1) lo
    let high_count := sat_count N (L + 1) hi
    if low_count + high_count = 0 then none
    else if rand d (low_count + high_count) < low_count then
      (sampleGo N rand fill (d + 1) lo).map (fun a i => if i = L then false else a i)
    else
      (sampleGo N rand fill (d + 1) hi).map (fun a i => if i = L then true else a i)

/-- `_sample_one_uniform`: `None` when the argument is unsatisfiable (line 84),
otherwise the cofactor-weighted descent. -/
def sample_one_uniform (N : Nat) (rand : Nat → Nat → Nat) (fill : Nat → Bool)
    (b : BDD) : Option (Nat → Bool) :=
  if satisfiable b then sampleGo N rand fill 0 b else none

/-- Probability that `_sample_one_uniform`, started at level `ℓ` on the
sub-diagram `b`, produces exactly the total assignment `a` (restricted to
levels `≥ ℓ`). -/
def samplerProb (N : Nat) : Nat → BDD → (Nat → Bool) → ℚ
  | ℓ, leaf true, _ => (2⁻¹ : ℚ) ^ (N - ℓ)
  | _, leaf false, _ => 0
  | ℓ, node L lo hi, a =>
    let low_count := sat_count N (L + 1) lo
    let high_count := sat_count N (L + 1) hi
    if low_count + high_count = 0 then 0
    else
      (2⁻¹ : ℚ) ^ (L - ℓ) *
        (if a L then
          (high_count : ℚ) / ((low_count : ℚ) + (high_count : ℚ)) *
            samplerProb N (L + 1) hi a
        else
          (low_count : ℚ) / ((low_count : ℚ) + (high_count : ℚ)) *
            samplerProb N (L + 1) lo a)

/-! ## Sample collection (`report_iii_urs_ratio`, source lines 116-140) -/

/-- The collection loop of `report_iii_urs_ratio` (lines 121-127): up to
`k*20 + 100` iterations; stop early once `k` unique samples are gathered; a
draw (`draw attempts`, modelling one `_sample_one_uniform()` call) that yields
`none` or a duplicate adds nothing.  Returns the samples together with the
number of single-draw attempts performed. -/
def ursRun (k : Nat) (draw : Nat → Option (List Bool)) :
    Nat → List (List Bool) → Nat → List (List Bool) × Nat
  | 0, samples, attempts => (samples, attempts)
  | n + 1, samples, attempts =>
    if k ≤ samples.length then (samples, attempts)
    else
      match draw attempts with
      | some c =>
        ursRun k draw n (if samples.contains c then samples else c :: samples) (attempts + 1)
      | none => ursRun k draw n samples (attempts + 1)

/-- The whole collection phase: the loop entered with budget `k*20 + 100`
(line 122), an empty sample set and zero attempts. -/
def ursSamples (k : Nat) (draw : Nat → Option (List Bool)) : List (List Bool) × Nat :=
  ursRun k draw (k * 20 + 100) [] 0

/-! ## Pairwise interactions (`report_iv_pairwise_interactions`, lines 142-153)
and the cover builder (`report_v_pairwise_cover_size`, lines 155-199) -/

/-- `report_iv_pairwise_interactions`: for every `i < j < N` (both loops range
over ALL variables), add one for each of the four polarity combinations whose
conjunction with `phi` is satisfiable, in the source's order `(1,1), (1,0),
(0,1), (0,0)`. -/
def report_iv_pairwise_interactions (N : Nat) (phi : BDD) : Nat :=
  ((List.range N).map (fun i =>
    (((List.range N).filter (fun j => decide (i < j))).map (fun j =>
      (if satisfiable (band (band phi (varB i)) (varB j)) then 1 else 0) +
      (if satisfiable (band (band phi (varB i)) (bnot (varB j))) then 1 else 0) +
      (if satisfiable (band (band phi (bnot (varB i))) (varB j)) then 1 else 0) +
      (if satisfiable (band (band phi (bnot (varB i))) (bnot (varB j))) then 1 else 0))).sum)).sum

/-- A pairwise obligation `((i, val_i), (j, val_j))` with `i < j` — already the
canonical form produced by `tuple(sorted((p1, p2)))` at line 168. -/
structure Obl where
  i : Nat
  vi : Bool
  j : Nat
  vj : Bool
deriving DecidableEq, Repr

/-- `lit_i` of source lines 163-164 and 176-177: the variable or its negation. -/
def oblLit (v : Nat) (val : Bool) : BDD :=
  if val then varB v else bnot (varB v)

/-- `restricted_bdd = self.phi_bdd & lit_i & lit_j` (line 178). -/
def restrictBy (phi : BDD) (ob : Obl) : BDD :=
  band (band phi (oblLit ob.i ob.vi)) (oblLit ob.j ob.vj)

/-- `solution[p_i] == p_val_i and solution[p_j] == p_val_j` (line 187). -/
def covers (a : Nat → Bool) (ob : Obl) : Bool :=
  a ob.i == ob.vi && a ob.j == ob.vj

/-- The obligation universe of `report_v_pairwise_cover_size` (lines 159-168):
all pairs `i < j` over ALL variables, polarity combinations in generation
order `(0,0), (0,1), (1,0), (1,1)`, kept iff satisfiable with `phi`.  The
Python `set` is modelled by this list (every generated tuple is distinct, and
`next(iter(uncovered))` is modelled as taking the head). -/
def pairUniverse (N : Nat) (phi : BDD) : List Obl :=
  (List.range N).flatMap (fun i =>
    ((List.range N).filter (fun j => decide (i < j))).flatMap (fun j =>
      ([(false, false), (false, true), (true, false), (true, true)] :
          List (Bool × Bool)).filterMap (fun p =>
        if satisfiable (restrictBy phi ⟨i, p.1, j, p.2⟩) then some ⟨i, p.1, j, p.2⟩
        else none)))

/-- The greedy cover loop (lines 173-195).  `sampler n b` models the
`_sample_one_uniform(restricted_bdd)` call of iteration `n` (fresh randomness
per call).  On success the witness is appended and every obligation it covers
is removed (lines 182-192); on failure only the targeted obligation is dropped
(line 194).  The fuel argument bounds the iterations; it is always called with
fuel `≥` the number of obligations, which line-by-line decrease makes
sufficient. -/
def coverLoop (phi : BDD) (sampler : Nat → BDD → Option (Nat → Bool)) :
    Nat → List Obl → List (Nat → Bool) → List (Nat → Bool) × List Obl
  | _, [], cover => (cover, [])
  | 0, unc, cover => (cover, unc)
  | fuel + 1, ob :: rest, cover =>
    match sampler fuel (restrictBy phi ob) with
    | some sol =>
      coverLoop phi sampler fuel ((ob :: rest).filter (fun p => !(covers sol p)))
        (cover ++ [sol])
    | none => coverLoop phi sampler fuel rest cover

/-- `report_v_pairwise_cover_size`: `0` straight away when the universe is
empty (line 170), otherwise the size of the cover built by the loop. -/
def report_v_pairwise_cover_size (N : Nat) (phi : BDD)
    (sampler : Nat → BDD → Option (Nat → Bool)) : Nat :=
  let uncovered := pairUniverse N phi
  if uncovered = [] then 0
  else (coverLoop phi sampler uncovered.length uncovered []).1.length

/-! ## Definitions written from the spec's words, for comparison -/

/-- Written from the spec's words for comparison with `parse_dimacs` (§4.1:
"Effective variable count = max(declared count, largest literal magnitude
observed)").  The source has no such computation. -/
def effective_var_count_spec (d : DimacsData) : Int :=
  max d.num_vars ((d.clauses.flatMap (fun c => c)).foldl (fun m lit => max m |lit|) 0)

/-- Written from the spec's words for comparison with `_build_bdd` (§3:
"violations are diagnostics, not fatal — the offending literal is dropped"):
the same construction, additionally counting one diagnostic per dropped
out-of-range literal.  The source records no such count. -/
def build_bdd_spec_diag (N : Nat) (clauses : List (List Int)) : BDD × Nat :=
  clauses.foldl
    (fun (acc : BDD × Nat) c =>
      let r := c.foldl
        (fun (cl : BDD × Nat) lit =>
          let idx : Int := |lit| - 1
          if 0 ≤ idx ∧ idx < (N : Int) then
            (bor cl.1 (if 0 < lit then varB idx.toNat else bnot (varB idx.toNat)), cl.2)
          else (cl.1, cl.2 + 1))
        (leaf false, acc.2)
      (band acc.1 r.1, r.2))
    (leaf true, 0)

deriving instance DecidableEq for Except

/-! ## Basic lemmas about the diagram primitives -/

namespace BDD

@[simp] lemma eval_leaf (b : Bool) (a : Nat → Bool) : eval (leaf b) a = b := rfl

@[simp] lemma eval_node (L : Nat) (lo hi : BDD) (a : Nat → Bool) :
    eval (node L lo hi) a = if a L then eval hi a else eval lo a := rfl

@[simp] lemma eval_mk (L : Nat) (lo hi : BDD) (a : Nat → Bool) :
    eval (mk L lo hi) a = if a L then eval hi a else eval lo a := by
  unfold mk
  split
  · next h => subst h; cases a L <;> simp
  · rfl

@[simp] lemma eval_bnot (b : BDD) (a : Nat → Bool) : eval (bnot b) a = !(eval b a) := by
  induction b with
  | leaf c => simp [bnot]
  | node L lo hi ihlo ihhi => cases h : a L <;> simp [bnot, h, ihlo, ihhi]

lemma eval_band (f : BDD) : ∀ (g : BDD) (a : Nat → Bool),
    eval (band f g) a = (eval f a && eval g a) := by
  induction f with
  | leaf b => intro g a; cases b <;> simp [band]
  | node L1 lo1 hi1 ihlo ihhi =>
    intro g a
    show eval (band.go L1 lo1 hi1 (band lo1) (band hi1) g) a = _
    induction g with
    | leaf b2 => cases b2 <;> cases h : a L1 <;> simp [band.go, h]
    | node L2 lo2 hi2 ihlo2 ihhi2 =>
      rw [band.go]
      rcases Nat.lt_trichotomy L1 L2 with hlt | heq | hgt
      · rw [if_neg (Nat.ne_of_lt hlt), if_pos hlt]
        cases h : a L1 <;> simp [h, ihlo, ihhi]
      · subst heq
        rw [if_pos rfl]
        cases h : a L1 <;> simp [h, ihlo, ihhi]
      · rw [if_neg (Nat.ne_of_gt hgt), if_neg (Nat.lt_asymm hgt)]
        cases h : a L2 <;> simp only [eval_mk, eval_node, h, if_false, if_true,
          ihlo2, ihhi2] <;> cases a L1 <;> simp

lemma eval_bor (f : BDD) : ∀ (g : BDD) (a : Nat → Bool),
    eval (bor f g) a = (eval f a || eval g a) := by
  induction f with
  | leaf b => intro g a; cases b <;> simp [bor]
  | node L1 lo1 hi1 ihlo ihhi =>
    intro g a
    show eval (bor.go L1 lo1 hi1 (bor lo1) (bor hi1) g) a = _
    induction g with
    | leaf b2 => cases b2 <;> cases h : a L1 <;> simp [bor.go, h]
    | node L2 lo2 hi2 ihlo2 ihhi2 =>
      rw [bor.go]
      rcases Nat.lt_trichotomy L1 L2 with hlt | heq | hgt
      · rw [if_neg (Nat.ne_of_lt hlt), if_pos hlt]
        cases h : a L1 <;> simp [h, ihlo, ihhi]
      · subst heq
        rw [if_pos rfl]
        cases h : a L1 <;> simp [h, ihlo, ihhi]
      · rw [if_neg (Nat.ne_of_gt hgt), if_neg (Nat.lt_asymm hgt)]
        cases h : a L2 <;> simp only [eval_mk, eval_node, h, if_false, if_true,
          ihlo2, ihhi2] <;> cases a L1 <;> simp

@[simp] lemma eval_varB (i : Nat) (a : Nat → Bool) : eval (varB i) a = a i := by
  cases h : a i <;> simp [varB, h]

@[simp] lemma orderedB_leaf (ℓ N : Nat) (b : Bool) : orderedB ℓ N (leaf b) = true := rfl

lemma orderedB_node_iff (ℓ N L : Nat) (lo hi : BDD) :
    orderedB ℓ N (node L lo hi) = true ↔
      ℓ ≤ L ∧ L < N ∧ orderedB (L + 1) N lo = true ∧ orderedB (L + 1) N hi = true := by
  simp [orderedB, and_assoc]

lemma orderedB_mono {ℓ ℓ' N : Nat} {b : BDD} (h : ℓ' ≤ ℓ)
    (hb : orderedB ℓ N b = true) : orderedB ℓ' N b = true := by
  cases b with
  | leaf c => rfl
  | node L lo hi =>
    rw [orderedB_node_iff] at hb ⊢
    exact ⟨le_trans h hb.1, hb.2⟩

lemma orderedB_mk {ℓ N L : Nat} {lo hi : BDD} (h1 : ℓ ≤ L) (h2 : L < N)
    (hlo : orderedB (L + 1) N lo = true) (hhi : orderedB (L + 1) N hi = true) :
    orderedB ℓ N (mk L lo hi) = true := by
  unfold mk
  split
  · exact orderedB_mono (le_trans h1 (Nat.le_succ L)) hlo
  · exact (orderedB_node_iff ..).mpr ⟨h1, h2, hlo, hhi⟩

lemma orderedB_bnot {ℓ N : Nat} {b : BDD} (hb : orderedB ℓ N b = true) :
    orderedB ℓ N (bnot b) = true := by
  induction b generalizing ℓ with
  | leaf c => rfl
  | node L lo hi ihlo ihhi =>
    rw [orderedB_node_iff] at hb
    exact (orderedB_node_iff ..).mpr ⟨hb.1, hb.2.1, ihlo hb.2.2.1, ihhi hb.2.2.2⟩

lemma orderedB_varB {i N : Nat} (h : i < N) : orderedB 0 N (varB i) = true := by
  simp [varB, orderedB, h]

lemma orderedB_band (f : BDD) : ∀ {ℓ N : Nat} (g : BDD),
    orderedB ℓ N f = true → orderedB ℓ N g = true → orderedB ℓ N (band f g) = true := by
  induction f with
  | leaf b =>
    intro ℓ N g _ hg
    cases b <;> simp [band] <;> exact hg
  | node L1 lo1 hi1 ihlo ihhi =>
    intro ℓ N g hf hg
    show orderedB ℓ N (band.go L1 lo1 hi1 (band lo1) (band hi1) g) = true
    rw [orderedB_node_iff] at hf
    obtain ⟨hℓ1, hL1, hlo1, hhi1⟩ := hf
    induction g generalizing ℓ with
    | leaf b2 =>
      cases b2 <;> simp [band.go]
      exact (orderedB_node_iff ..).mpr ⟨hℓ1, hL1, hlo1, hhi1⟩
    | node L2 lo2 hi2 ihlo2 ihhi2 =>
      rw [orderedB_node_iff] at hg
      obtain ⟨hℓ2, hL2, hlo2, hhi2⟩ := hg
      rw [band.go]
      rcases Nat.lt_trichotomy L1 L2 with hlt | heq | hgt
      · rw [if_neg (Nat.ne_of_lt hlt), if_pos hlt]
        have hg' : orderedB (L1 + 1) N (node L2 lo2 hi2) = true :=
          (orderedB_node_iff ..).mpr ⟨hlt, hL2, hlo2, hhi2⟩
        exact orderedB_mk hℓ1 hL1 (ihlo _ hlo1 hg') (ihhi _ hhi1 hg')
      · subst heq
        rw [if_pos rfl]
        exact orderedB_mk hℓ1 hL1 (ihlo _ hlo1 hlo2) (ihhi _ hhi1 hhi2)
      · rw [if_neg (Nat.ne_of_gt hgt), if_neg (Nat.lt_asymm hgt)]
        exact orderedB_mk hℓ2 hL2 (ihlo2 hlo2 hgt) (ihhi2 hhi2 hgt)

lemma orderedB_bor (f : BDD) : ∀ {ℓ N : Nat} (g : BDD),
    orderedB ℓ N f = true → orderedB ℓ N g = true → orderedB ℓ N (bor f g) = true := by
  induction f with
  | leaf b =>
    intro ℓ N g _ hg
    cases b <;> simp [bor] <;> exact hg
  | node L1 lo1 hi1 ihlo ihhi =>
    intro ℓ N g hf hg
    show orderedB ℓ N (bor.go L1 lo1 hi1 (bor lo1) (bor hi1) g) = true
    rw [orderedB_node_iff] at hf
    obtain ⟨hℓ1, hL1, hlo1, hhi1⟩ := hf
    induction g generalizing ℓ with
    | leaf b2 =>
      cases b2 <;> simp [bor.go]
      exact (orderedB_node_iff ..).mpr ⟨hℓ1, hL1, hlo1, hhi1⟩
    | node L2 lo2 hi2 ihlo2 ihhi2 =>
      rw [orderedB_node_iff] at hg
      obtain ⟨hℓ2, hL2, hlo2, hhi2⟩ := hg
      rw [bor.go]
      rcases Nat.lt_trichotomy L1 L2 with hlt | heq | hgt
      · rw [if_neg (Nat.ne_of_lt hlt), if_pos hlt]
        have hg' : orderedB (L1 + 1) N (node L2 lo2 hi2) = true :=
          (orderedB_node_iff ..).mpr ⟨hlt, hL2, hlo2, hhi2⟩
        exact orderedB_mk hℓ1 hL1 (ihlo _ hlo1 hg') (ihhi _ hhi1 hg')
      · subst heq
        rw [if_pos rfl]
        exact orderedB_mk hℓ1 hL1 (ihlo _ hlo1 hlo2) (ihhi _ hhi1 hhi2)
      · rw [if_neg (Nat.ne_of_gt hgt), if_neg (Nat.lt_asymm hgt)]
        exact orderedB_mk hℓ2 hL2 (ihlo2 hlo2 hgt) (ihhi2 hhi2 hgt)

@[simp] lemma reducedB_leaf (b : Bool) : reducedB (leaf b) = true := rfl

lemma reducedB_node_iff (L : Nat) (lo hi : BDD) :
    reducedB (node L lo hi) = true ↔
      lo ≠ hi ∧ reducedB lo = true ∧ reducedB hi = true := by
  simp [reducedB, and_assoc]

lemma reducedB_mk {L : Nat} {lo hi : BDD} (hlo : reducedB lo = true)
    (hhi : reducedB hi = true) : reducedB (mk L lo hi) = true := by
  unfold mk
  split
  · exact hlo
  · next h => exact (reducedB_node_iff ..).mpr ⟨h, hlo, hhi⟩

@[simp] lemma bnot_bnot (b : BDD) : bnot (bnot b) = b := by
  induction b with
  | leaf c => simp [bnot]
  | node L lo hi ihlo ihhi => simp [bnot, ihlo, ihhi]

lemma reducedB_bnot {b : BDD} (hb : reducedB b = true) : reducedB (bnot b) = true := by
  induction b with
  | leaf c => rfl
  | node L lo hi ihlo ihhi =>
    rw [reducedB_node_iff] at hb
    refine (reducedB_node_iff ..).mpr ⟨?_, ihlo hb.2.1, ihhi hb.2.2⟩
    intro h
    exact hb.1 (by rw [← bnot_bnot lo, h, bnot_bnot])

lemma reducedB_band (f : BDD) : ∀ (g : BDD),
    reducedB f = true → reducedB g = true → reducedB (band f g) = true := by
  induction f with
  | leaf b =>
    intro g _ hg
    cases b <;> simp [band] <;> exact hg
  | node L1 lo1 hi1 ihlo ihhi =>
    intro g hf hg
    show reducedB (band.go L1 lo1 hi1 (band lo1) (band hi1) g) = true
    rw [reducedB_node_iff] at hf
    obtain ⟨hne1, hlo1, hhi1⟩ := hf
    induction g with
    | leaf b2 =>
      cases b2 <;> simp [band.go]
      exact (reducedB_node_iff ..).mpr ⟨hne1, hlo1, hhi1⟩
    | node L2 lo2 hi2 ihlo2 ihhi2 =>
      rw [reducedB_node_iff] at hg
      obtain ⟨hne2, hlo2, hhi2⟩ := hg
      rw [band.go]
      rcases Nat.lt_trichotomy L1 L2 with hlt | heq | hgt
      · rw [if_neg (Nat.ne_of_lt hlt), if_pos hlt]
        have hg' : reducedB (node L2 lo2 hi2) = true :=
          (reducedB_node_iff ..).mpr ⟨hne2, hlo2, hhi2⟩
        exact reducedB_mk (ihlo _ hlo1 hg') (ihhi _ hhi1 hg')
      · subst heq
        rw [if_pos rfl]
        exact reducedB_mk (ihlo _ hlo1 hlo2) (ihhi _ hhi1 hhi2)
      · rw [if_neg (Nat.ne_of_gt hgt), if_neg (Nat.lt_asymm hgt)]
        exact reducedB_mk (ihlo2 hlo2) (ihhi2 hhi2)

lemma reducedB_bor (f : BDD) : ∀ (g : BDD),
    reducedB f = true → reducedB g = true → reducedB (bor f g) = true := by
  induction f with
  | leaf b =>
    intro g _ hg
    cases b <;> simp [bor] <;> exact hg
  | node L1 lo1 hi1 ihlo ihhi =>
    intro g hf hg
    show reducedB (bor.go L1 lo1 hi1 (bor lo1) (bor hi1) g) = true
    rw [reducedB_node_iff] at hf
    obtain ⟨hne1, hlo1, hhi1⟩ := hf
    induction g with
    | leaf b2 =>
      cases b2 <;> simp [bor.go]
      exact (reducedB_node_iff ..).mpr ⟨hne1, hlo1, hhi1⟩
    | node L2 lo2 hi2 ihlo2 ihhi2 =>
      rw [reducedB_node_iff] at hg
      obtain ⟨hne2, hlo2, hhi2⟩ := hg
      rw [bor.go]
      rcases Nat.lt_trichotomy L1 L2 with hlt | heq | hgt
      · rw [if_neg (Nat.ne_of_lt hlt), if_pos hlt]
        have hg' : reducedB (node L2 lo2 hi2) = true :=
          (reducedB_node_iff ..).mpr ⟨hne2, hlo2, hhi2⟩
        exact reducedB_mk (ihlo _ hlo1 hg') (ihhi _ hhi1 hg')
      · subst heq
        rw [if_pos rfl]
        exact reducedB_mk (ihlo _ hlo1 hlo2) (ihhi _ hhi1 hhi2)
      · rw [if_neg (Nat.ne_of_gt hgt), if_neg (Nat.lt_asymm hgt)]
        exact reducedB_mk (ihlo2 hlo2) (ihhi2 hhi2)

/-! ### Satisfiability and model counting -/

lemma satisfiable_of_eval {b : BDD} {a : Nat → Bool} (h : eval b a = true) :
    satisfiable b = true := by
  induction b with
  | leaf c => exact h
  | node L lo hi ihlo ihhi =>
    rw [eval_node] at h
    rcases hL : a L with hv | hv
    · rw [hL, if_neg (by simp)] at h
      simp [satisfiable, ihlo h]
    · rw [hL, if_pos rfl] at h
      simp [satisfiable, ihhi h]

/-- A diagram whose levels all lie at or above `ℓ` never reads the value of a
variable below `ℓ`. -/
lemma eval_override {ℓ N : Nat} {b : BDD} (hb : orderedB ℓ N b = true) {i : Nat}
    (hi : i < ℓ) (a : Nat → Bool) (v : Bool) :
    eval b (fun k => if k = i then v else a k) = eval b a := by
  induction b generalizing ℓ with
  | leaf c => rfl
  | node L lo hi ihlo ihhi =>
    rw [orderedB_node_iff] at hb
    obtain ⟨h1, _, hlo, hhi⟩ := hb
    have hLi : L ≠ i := by omega
    rw [eval_node, eval_node, if_neg hLi]
    cases hL : a L with
    | false => simp only [Bool.false_eq_true, if_false]; exact ihlo hlo (by omega)
    | true => simp only [if_true]; exact ihhi hhi (by omega)

lemma exists_eval_of_satisfiable {ℓ N : Nat} {b : BDD} (hb : orderedB ℓ N b = true)
    (hs : satisfiable b = true) : ∃ a : Nat → Bool, eval b a = true := by
  induction b generalizing ℓ with
  | leaf c => exact ⟨fun _ => false, hs⟩
  | node L lo hi ihlo ihhi =>
    rw [orderedB_node_iff] at hb
    obtain ⟨_, _, hlo, hhi⟩ := hb
    have hs' : satisfiable lo = true ∨ satisfiable hi = true := by
      simpa [satisfiable, Bool.or_eq_true] using hs
    rcases hs' with hslo | hshi
    · obtain ⟨a, ha⟩ := ihlo hlo hslo
      refine ⟨fun k => if k = L then false else a k, ?_⟩
      rw [eval_node, if_neg (by simp), eval_override hlo (Nat.lt_succ_self L) a false]
      exact ha
    · obtain ⟨a, ha⟩ := ihhi hhi hshi
      refine ⟨fun k => if k = L then true else a k, ?_⟩
      rw [eval_node, if_pos (by simp), eval_override hhi (Nat.lt_succ_self L) a true]
      exact ha

@[simp] lemma satisfiable_leaf (c : Bool) : satisfiable (leaf c) = c := rfl

lemma sat_count_eq_zero_iff {ℓ N : Nat} {b : BDD} (hb : orderedB ℓ N b = true) :
    sat_count N ℓ b = 0 ↔ satisfiable b = false := by
  induction b generalizing ℓ with
  | leaf c => cases c <;> simp [sat_count, Nat.pow_eq_zero]
  | node L lo hi ihlo ihhi =>
    rw [orderedB_node_iff] at hb
    obtain ⟨_, _, hlo, hhi⟩ := hb
    rw [sat_count]
    simp only [Nat.mul_eq_zero, Nat.add_eq_zero, Nat.pow_eq_zero]
    simp [satisfiable, ihlo hlo, ihhi hhi, Bool.or_eq_false_iff]

lemma sat_count_pos_iff {ℓ N : Nat} {b : BDD} (hb : orderedB ℓ N b = true) :
    0 < sat_count N ℓ b ↔ satisfiable b = true := by
  rw [Nat.pos_iff_ne_zero, ne_eq, sat_count_eq_zero_iff hb]
  cases satisfiable b <;> simp

lemma eq_leaf_false_of_not_satisfiable {b : BDD} (hr : reducedB b = true)
    (hs : satisfiable b = false) : b = leaf false := by
  induction b with
  | leaf c => cases c with
    | false => rfl
    | true => exact absurd hs (by simp)
  | node L lo hi ihlo ihhi =>
    rw [reducedB_node_iff] at hr
    have hs' : satisfiable lo = false ∧ satisfiable hi = false := by
      simpa [satisfiable, Bool.or_eq_false_iff] using hs
    exact absurd (Eq.trans (ihlo hr.2.1 hs'.1) (ihhi hr.2.2 hs'.2).symm) hr.1

end BDD

/-! ### Invariants of the built diagram -/

lemma orderedB_clause_bdd (N : Nat) (c : List Int) :
    orderedB 0 N (clause_bdd N c) = true := by
  suffices h : ∀ acc, orderedB 0 N acc = true →
      orderedB 0 N (c.foldl
        (fun acc lit =>
          let idx : Int := |lit| - 1
          if 0 ≤ idx ∧ idx < (N : Int) then
            bor acc (if 0 < lit then varB idx.toNat else bnot (varB idx.toNat))
          else acc) acc) = true by
    exact h (leaf false) rfl
  induction c with
  | nil => intro acc hacc; exact hacc
  | cons lit rest ih =>
    intro acc hacc
    refine ih _ ?_
    simp only
    split
    · next hin =>
      have hidx : (|lit| - 1).toNat < N := by omega
      have hv : orderedB 0 N (varB (|lit| - 1).toNat) = true := orderedB_varB hidx
      split
      · exact orderedB_bor acc _ hacc hv
      · exact orderedB_bor acc _ hacc (orderedB_bnot hv)
    · exact hacc

lemma reducedB_clause_bdd (N : Nat) (c : List Int) :
    reducedB (clause_bdd N c) = true := by
  suffices h : ∀ acc, reducedB acc = true →
      reducedB (c.foldl
        (fun acc lit =>
          let idx : Int := |lit| - 1
          if 0 ≤ idx ∧ idx < (N : Int) then
            bor acc (if 0 < lit then varB idx.toNat else bnot (varB idx.toNat))
          else acc) acc) = true by
    exact h (leaf false) rfl
  induction c with
  | nil => intro acc hacc; exact hacc
  | cons lit rest ih =>
    intro acc hacc
    refine ih _ ?_
    simp only
    split
    · have hv : reducedB (varB (|lit| - 1).toNat) = true := by
        simp [varB, reducedB]
      split
      · exact reducedB_bor acc _ hacc hv
      · exact reducedB_bor acc _ hacc (reducedB_bnot hv)
    · exact hacc

lemma orderedB_build_bdd (N : Nat) (clauses : List (List Int)) :
    orderedB 0 N (build_bdd N clauses) = true := by
  suffices h : ∀ acc, orderedB 0 N acc = true →
      orderedB 0 N (clauses.foldl (fun phi c => band phi (clause_bdd N c)) acc) = true by
    exact h (leaf true) rfl
  induction clauses with
  | nil => intro acc hacc; exact hacc
  | cons c rest ih =>
    intro acc hacc
    exact ih _ (orderedB_band acc _ hacc (orderedB_clause_bdd N c))

lemma reducedB_build_bdd (N : Nat) (clauses : List (List Int)) :
    reducedB (build_bdd N clauses) = true := by
  suffices h : ∀ acc, reducedB acc = true →
      reducedB (clauses.foldl (fun phi c => band phi (clause_bdd N c)) acc) = true by
    exact h (leaf true) rfl
  induction clauses with
  | nil => intro acc hacc; exact hacc
  | cons c rest ih =>
    intro acc hacc
    exact ih _ (reducedB_band acc _ hacc (reducedB_clause_bdd N c))

/-! ### The sampler: distribution and operational behavior -/

lemma samplerProb_eq_zero {N : Nat} {b : BDD} {a : Nat → Bool} :
    ∀ {ℓ : Nat}, eval b a = false → samplerProb N ℓ b a = 0 := by
  induction b with
  | leaf c =>
    intro ℓ h
    cases c with
    | false => rfl
    | true => exact absurd h (by simp)
  | node L lo hi ihlo ihhi =>
    intro ℓ h
    rw [eval_node] at h
    rw [samplerProb]
    split
    · rfl
    · cases hL : a L with
      | false =>
        rw [hL, if_neg (by simp)] at h
        simp only [hL, Bool.false_eq_true, if_false, ihlo h, mul_zero]
      | true =>
        rw [hL, if_pos rfl] at h
        simp only [hL, if_true, ihhi h, mul_zero]

/-- Uniformity of `_sample_one_uniform`: on an ordered diagram, every
satisfying total assignment is produced with probability exactly the
reciprocal of the model count. -/
lemma samplerProb_uniform {N : Nat} {b : BDD} {a : Nat → Bool} :
    ∀ {ℓ : Nat}, orderedB ℓ N b = true → eval b a = true →
      samplerProb N ℓ b a = ((sat_count N ℓ b : ℚ))⁻¹ := by
  induction b with
  | leaf c =>
    intro ℓ _ h
    cases c with
    | false => exact absurd h (by simp)
    | true =>
      show (2⁻¹ : ℚ) ^ (N - ℓ) = ((2 ^ (N - ℓ) : ℕ) : ℚ)⁻¹
      push_cast
      rw [inv_pow]
  | node L lo hi ihlo ihhi =>
    intro ℓ hb h
    rw [orderedB_node_iff] at hb
    obtain ⟨h1, h2, hlo, hhi⟩ := hb
    rw [eval_node] at h
    rw [samplerProb, sat_count]
    cases hL : a L with
    | false =>
      rw [hL, if_neg (by simp)] at h
      have hcl : 0 < sat_count N (L + 1) lo :=
        (sat_count_pos_iff hlo).mpr (satisfiable_of_eval h)
      have htot : ¬(sat_count N (L + 1) lo + sat_count N (L + 1) hi = 0) := by omega
      rw [if_neg htot]
      simp only [hL, Bool.false_eq_true, if_false]
      rw [ihlo hlo h]
      have hclQ : ((sat_count N (L + 1) lo : ℕ) : ℚ) ≠ 0 := by
        exact_mod_cast Nat.pos_iff_ne_zero.mp hcl
      have htotQ : ((sat_count N (L + 1) lo : ℕ) : ℚ) +
          ((sat_count N (L + 1) hi : ℕ) : ℚ) ≠ 0 := by
        positivity
      push_cast
      rw [inv_pow]
      field_simp
      ring
    | true =>
      rw [hL, if_pos rfl] at h
      have hch : 0 < sat_count N (L + 1) hi :=
        (sat_count_pos_iff hhi).mpr (satisfiable_of_eval h)
      have htot : ¬(sat_count N (L + 1) lo + sat_count N (L + 1) hi = 0) := by omega
      rw [if_neg htot]
      simp only [hL, if_true]
      rw [ihhi hhi h]
      have hchQ : ((sat_count N (L + 1) hi : ℕ) : ℚ) ≠ 0 := by
        exact_mod_cast Nat.pos_iff_ne_zero.mp hch
      have htotQ : ((sat_count N (L + 1) lo : ℕ) : ℚ) +
          ((sat_count N (L + 1) hi : ℕ) : ℚ) ≠ 0 := by
        positivity
      push_cast
      rw [inv_pow]
      field_simp
      ring

/-- Soundness of the operational sampler: whatever the random draws and the
don't-care fill, a produced assignment satisfies the sampled diagram.  (The
bound `M` of the ordering hypothesis is independent of the sampler's variable
count `N`: soundness only needs the levels to increase downward.) -/
lemma sampleGo_sound {N M : Nat} {rand : Nat → Nat → Nat} {fill : Nat → Bool} {b : BDD} :
    ∀ {ℓ d : Nat} {a : Nat → Bool}, orderedB ℓ M b = true →
      sampleGo N rand fill d b = some a → eval b a = true := by
  induction b with
  | leaf c =>
    intro ℓ d a _ h
    cases c with
    | false => exact absurd h (by simp [sampleGo])
    | true => simp
  | node L lo hi ihlo ihhi =>
    intro ℓ d a hb h
    rw [orderedB_node_iff] at hb
    obtain ⟨h1, h2, hlo, hhi⟩ := hb
    rw [sampleGo] at h
    split at h
    · exact absurd h (by simp)
    · split at h
      · obtain ⟨a', ha', rfl⟩ := Option.map_eq_some'.mp h
        have : eval lo a' = true := ihlo hlo ha'
        rw [eval_node, if_neg (by simp)]
        rw [show (fun i => if i = L then false else a' i) = Function.update a' L false by
          funext i
          by_cases hiL : i = L <;> simp [hiL, Function.update]]
        rw [show Function.update a' L false = (fun k => if k = L then false else a' k) by
          funext i
          by_cases hiL : i = L <;> simp [hiL, Function.update]]
        rw [eval_override hlo (Nat.lt_succ_self L) a' false]
        exact this
      · obtain ⟨a', ha', rfl⟩ := Option.map_eq_some'.mp h
        have : eval hi a' = true := ihhi hhi ha'
        rw [eval_node, if_pos (by simp)]
        rw [show (fun i => if i = L then true else a' i) =
            (fun k => if k = L then true else a' k) from rfl]
        rw [eval_override hhi (Nat.lt_succ_self L) a' true]
        exact this

/-- Completeness of the operational sampler: on a satisfiable ordered diagram,
with in-range random draws, the descent always produces an assignment
(the `total == 0` early-out of line 101 is never taken). -/
lemma sampleGo_isSome {N : Nat} {rand : Nat → Nat → Nat} {fill : Nat → Bool}
    (hrand : ∀ d t, 0 < t → rand d t < t) {b : BDD} :
    ∀ {ℓ d : Nat}, orderedB ℓ N b = true → satisfiable b = true →
      (sampleGo N rand fill d b).isSome = true := by
  induction b with
  | leaf c =>
    intro ℓ d _ hs
    cases c with
    | false => exact absurd hs (by simp)
    | true => simp [sampleGo]
  | node L lo hi ihlo ihhi =>
    intro ℓ d hb hs
    rw [orderedB_node_iff] at hb
    obtain ⟨h1, h2, hlo, hhi⟩ := hb
    have hs' : satisfiable lo = true ∨ satisfiable hi = true := by
      simpa [satisfiable, Bool.or_eq_true] using hs
    have htot : 0 < sat_count N (L + 1) lo + sat_count N (L + 1) hi := by
      rcases hs' with hsl | hsh
      · have := (sat_count_pos_iff hlo).mpr hsl; omega
      · have := (sat_count_pos_iff hhi).mpr hsh; omega
    rw [sampleGo]
    rw [if_neg (by omega)]
    split
    · next hr =>
      have hcl : 0 < sat_count N (L + 1) lo := by omega
      have hsl : satisfiable lo = true := (sat_count_pos_iff hlo).mp hcl
      simpa [Option.isSome_map] using ihlo hlo hsl
    · next hr =>
      have hrlt := hrand d _ htot
      have hch : 0 < sat_count N (L + 1) hi := by omega
      have hsh : satisfiable hi = true := (sat_count_pos_iff hhi).mp hch
      simpa [Option.isSome_map] using ihhi hhi hsh

lemma sample_one_uniform_sound {N M : Nat} {rand : Nat → Nat → Nat} {fill : Nat → Bool}
    {b : BDD} {a : Nat → Bool} {ℓ : Nat} (hb : orderedB ℓ M b = true)
    (h : sample_one_uniform N rand fill b = some a) : eval b a = true := by
  rw [sample_one_uniform] at h
  split at h
  · exact sampleGo_sound hb h
  · exact absurd h (by simp)

lemma sample_one_uniform_isSome {N : Nat} {rand : Nat → Nat → Nat} {fill : Nat → Bool}
    (hrand : ∀ d t, 0 < t → rand d t < t) {b : BDD} {ℓ : Nat}
    (hb : orderedB ℓ N b = true) (hs : satisfiable b = true) :
    (sample_one_uniform N rand fill b).isSome = true := by
  rw [sample_one_uniform, if_pos hs]
  exact sampleGo_isSome hrand hb hs

lemma sample_one_uniform_of_not_satisfiable {N : Nat} {rand : Nat → Nat → Nat}
    {fill : Nat → Bool} {b : BDD} (hs : satisfiable b = false) :
    sample_one_uniform N rand fill b = none := by
  rw [sample_one_uniform, if_neg (by simp [hs])]

/-! ### Obligations, the pair universe and the interaction count -/

lemma eval_oblLit (v : Nat) (val : Bool) (a : Nat → Bool) :
    eval (oblLit v val) a = (a v == val) := by
  cases val <;> cases h : a v <;> simp [oblLit, h]

lemma orderedB_oblLit {v N : Nat} (h : v < N) (val : Bool) :
    orderedB 0 N (oblLit v val) = true := by
  cases val with
  | false => exact orderedB_bnot (orderedB_varB h)
  | true => exact orderedB_varB h

lemma eval_restrictBy (phi : BDD) (ob : Obl) (a : Nat → Bool) :
    eval (restrictBy phi ob) a = (eval phi a && (a ob.i == ob.vi) && (a ob.j == ob.vj)) := by
  rw [restrictBy, eval_band, eval_band, eval_oblLit, eval_oblLit]

lemma orderedB_restrictBy {N : Nat} {phi : BDD} (hphi : orderedB 0 N phi = true)
    {ob : Obl} (hi : ob.i < N) (hj : ob.j < N) :
    orderedB 0 N (restrictBy phi ob) = true :=
  orderedB_band _ _ (orderedB_band _ _ hphi (orderedB_oblLit hi ob.vi))
    (orderedB_oblLit hj ob.vj)

lemma mem_pairUniverse {N : Nat} {phi : BDD} {ob : Obl} :
    ob ∈ pairUniverse N phi ↔
      ob.i < ob.j ∧ ob.j < N ∧ satisfiable (restrictBy phi ob) = true := by
  obtain ⟨i, vi, j, vj⟩ := ob
  simp only [pairUniverse, List.mem_flatMap, List.mem_filter, List.mem_range,
    List.mem_filterMap, decide_eq_true_eq]
  constructor
  · rintro ⟨i', _, j', ⟨hj', hlt⟩, p, -, hif⟩
    split at hif
    · next hsat =>
      obtain ⟨rfl, rfl, rfl, rfl⟩ : i' = i ∧ p.1 = vi ∧ j' = j ∧ p.2 = vj := by
        cases Option.some_injective _ hif
        exact ⟨rfl, rfl, rfl, rfl⟩
      exact ⟨hlt, hj', hsat⟩
    · exact absurd hif (by simp)
  · rintro ⟨hij, hjN, hsat⟩
    refine ⟨i, by omega, j, ⟨hjN, hij⟩, (vi, vj), ?_, by simp [hsat]⟩
    cases vi <;> cases vj <;> simp

/-- The interaction count of report (iv) equals the number of obligations in
the cover universe of report (v): both enumerate the same satisfiable
pairwise combinations over all variable pairs. -/
lemma report_iv_eq_pairUniverse_length (N : Nat) (phi : BDD) :
    report_iv_pairwise_interactions N phi = (pairUniverse N phi).length := by
  rw [report_iv_pairwise_interactions, pairUniverse, List.length_flatMap]
  refine congrArg List.sum (List.map_congr_left ?_)
  intro i _
  simp only [Function.comp_apply]
  rw [List.length_flatMap]
  refine congrArg List.sum (List.map_congr_left ?_)
  intro j _
  simp only [Function.comp_apply]
  have e00 : satisfiable (band (band phi (bnot (varB i))) (bnot (varB j))) =
      satisfiable (restrictBy phi ⟨i, false, j, false⟩) := rfl
  have e01 : satisfiable (band (band phi (bnot (varB i))) (varB j)) =
      satisfiable (restrictBy phi ⟨i, false, j, true⟩) := rfl
  have e10 : satisfiable (band (band phi (varB i)) (bnot (varB j))) =
      satisfiable (restrictBy phi ⟨i, true, j, false⟩) := rfl
  have e11 : satisfiable (band (band phi (varB i)) (varB j)) =
      satisfiable (restrictBy phi ⟨i, true, j, true⟩) := rfl
  rw [e00, e01, e10, e11]
  cases h00 : satisfiable (restrictBy phi ⟨i, false, j, false⟩) <;>
    cases h01 : satisfiable (restrictBy phi ⟨i, false, j, true⟩) <;>
      cases h10 : satisfiable (restrictBy phi ⟨i, true, j, false⟩) <;>
        cases h11 : satisfiable (restrictBy phi ⟨i, true, j, true⟩) <;>
          simp [List.filterMap_cons, h00, h01, h10, h11]

/-- On the always-false diagram every restriction is unsatisfiable, so the
interaction count is `0`. -/
lemma report_iv_false (N : Nat) : report_iv_pairwise_interactions N (leaf false) = 0 := by
  rw [report_iv_pairwise_interactions]
  have hz : ∀ i j : Nat,
      (if satisfiable (band (band (leaf false) (varB i)) (varB j)) then 1 else 0) +
      (if satisfiable (band (band (leaf false) (varB i)) (bnot (varB j))) then 1 else 0) +
      (if satisfiable (band (band (leaf false) (bnot (varB i))) (varB j)) then 1 else 0) +
      (if satisfiable (band (band (leaf false) (bnot (varB i))) (bnot (varB j))) then 1
        else 0) = 0 := by
    intro i j
    simp [band]
  refine List.sum_eq_zero ?_
  intro x hx
  obtain ⟨i, -, rfl⟩ := List.mem_map.mp hx
  refine List.sum_eq_zero ?_
  intro y hy
  obtain ⟨j, -, rfl⟩ := List.mem_map.mp hy
  exact hz i j

lemma pairUniverse_false (N : Nat) : pairUniverse N (leaf false) = [] := by
  rw [List.eq_nil_iff_forall_not_mem]
  intro ob hob
  have h := (mem_pairUniverse.mp hob).2.2
  rw [show restrictBy (leaf false) ob = leaf false from rfl] at h
  exact absurd h (by simp)

lemma le_sum_of_mem {l : List Nat} {x : Nat} (hx : x ∈ l) : x ≤ l.sum := by
  induction l with
  | nil => cases hx
  | cons y ys ih =>
    rcases List.mem_cons.mp hx with rfl | hmem
    · simp
    · have := ih hmem
      simp only [List.sum_cons]
      omega

/-! ### The greedy cover loop -/

lemma covers_of_eval_restrictBy {phi : BDD} {ob : Obl} {a : Nat → Bool}
    (h : eval (restrictBy phi ob) a = true) : covers a ob = true := by
  rw [eval_restrictBy] at h
  simp only [Bool.and_eq_true] at h
  simp [covers, h.1.2, h.2]

lemma eval_phi_of_eval_restrictBy {phi : BDD} {ob : Obl} {a : Nat → Bool}
    (h : eval (restrictBy phi ob) a = true) : eval phi a = true := by
  rw [eval_restrictBy] at h
  simp only [Bool.and_eq_true] at h
  exact h.1.1

/-- Main invariant of the cover loop: with any sampler whose successful
results satisfy the restricted diagram they were drawn from, fuel equal to the
number of pending obligations suffices — every iteration removes at least the
targeted obligation — and every witness in the final cover satisfies `phi`. -/
lemma coverLoop_spec {phi : BDD} {sampler : Nat → BDD → Option (Nat → Bool)}
    (hs : ∀ (n : Nat) (ob : Obl) (a : Nat → Bool),
      sampler n (restrictBy phi ob) = some a → eval (restrictBy phi ob) a = true) :
    ∀ (fuel : Nat) (unc : List Obl) (cover : List (Nat → Bool)),
      unc.length ≤ fuel → (∀ c ∈ cover, eval phi c = true) →
      (coverLoop phi sampler fuel unc cover).2 = [] ∧
      (∀ c ∈ (coverLoop phi sampler fuel unc cover).1, eval phi c = true) := by
  intro fuel
  induction fuel with
  | zero =>
    intro unc cover hlen hcov
    have : unc = [] := List.length_eq_zero.mp (Nat.le_zero.mp hlen)
    subst this
    exact ⟨rfl, hcov⟩
  | succ fuel ih =>
    intro unc cover hlen hcov
    cases unc with
    | nil => exact ⟨rfl, hcov⟩
    | cons ob rest =>
      rw [coverLoop]
      cases hdraw : sampler fuel (restrictBy phi ob) with
      | some sol =>
        have hsol := hs fuel ob sol hdraw
        have hcong : covers sol ob = true := covers_of_eval_restrictBy hsol
        have hfilter : (ob :: rest).filter (fun p => !(covers sol p)) =
            rest.filter (fun p => !(covers sol p)) := by
          rw [List.filter_cons_of_neg (by simp [hcong])]
        have hlen' : ((ob :: rest).filter (fun p => !(covers sol p))).length ≤ fuel := by
          rw [hfilter]
          calc (rest.filter (fun p => !(covers sol p))).length
              ≤ rest.length := List.length_filter_le _ _
            _ ≤ fuel := by simpa using Nat.succ_le_succ_iff.mp hlen
        refine ih _ _ hlen' ?_
        intro c hc
        rcases List.mem_append.mp hc with hc | hc
        · exact hcov c hc
        · rw [List.mem_singleton.mp hc]
          exact eval_phi_of_eval_restrictBy hsol
      | none =>
        refine ih rest cover ?_ hcov
        simpa using Nat.succ_le_succ_iff.mp hlen

/-! ### The sampling-collection loop -/

lemma ursRun_spec (k : Nat) (draw : Nat → Option (List Bool)) :
    ∀ (n : Nat) (s : List (List Bool)) (a : Nat), s.length ≤ k →
      (ursRun k draw n s a).1.length ≤ k ∧
      (ursRun k draw n s a).2 ≤ a + n ∧
      ((ursRun k draw n s a).1.length = k ∨ (ursRun k draw n s a).2 = a + n) ∧
      (s.Nodup → (ursRun k draw n s a).1.Nodup) := by
  intro n
  induction n with
  | zero =>
    intro s a hlen
    exact ⟨hlen, Nat.le_refl a, Or.inr rfl, fun h => h⟩
  | succ n ih =>
    intro s a hlen
    rw [ursRun]
    split
    · next hk => exact ⟨hlen, by omega, Or.inl (Nat.le_antisymm hlen hk), fun h => h⟩
    · next hk =>
      have hlt : s.length < k := Nat.lt_of_not_le hk
      cases hdraw : draw a with
      | some c =>
        dsimp only
        have hlen' : (if s.contains c then s else c :: s).length ≤ k := by
          split
          · exact hlen
          · simpa using hlt
        obtain ⟨h1, h2, h3, h4⟩ := ih (if s.contains c then s else c :: s) (a + 1) hlen'
        refine ⟨h1, by omega, ?_, ?_⟩
        · rcases h3 with h3 | h3
          · exact Or.inl h3
          · exact Or.inr (by omega)
        · intro hnd
          refine h4 ?_
          split
          · exact hnd
          · next hcon => exact List.Nodup.cons (by simpa using hcon) hnd
      | none =>
        dsimp only
        obtain ⟨h1, h2, h3, h4⟩ := ih s (a + 1) hlen
        refine ⟨h1, by omega, ?_, h4⟩
        rcases h3 with h3 | h3
        · exact Or.inl h3
        · exact Or.inr (by omega)

/-! ### The suggested variable order -/

lemma finalOrder_mem_lt {N : Nat} {vo : List Int} {x : Nat}
    (hx : x ∈ (vo.filter (fun v => decide (1 ≤ v) && decide (v ≤ (N : Int)))).map
      (fun v => (v - 1).toNat)) : x < N := by
  obtain ⟨v, hv, rfl⟩ := List.mem_map.mp hx
  have := List.of_mem_filter hv
  simp only [Bool.and_eq_true, decide_eq_true_eq] at this
  omega

/-- When the in-range entries of the suggested order are duplicate-free, the
assembled order is a permutation of `[0, N)`. -/
lemma finalOrder_perm (N : Nat) (vo : List Int)
    (h : ((vo.filter (fun v => decide (1 ≤ v) && decide (v ≤ (N : Int)))).map
      (fun v => (v - 1).toNat)).Nodup) :
    (finalOrder N vo).Perm (List.range N) := by
  rw [finalOrder]
  set fo := (vo.filter (fun v => decide (1 ≤ v) && decide (v ≤ (N : Int)))).map
    (fun v => (v - 1).toNat) with hfo
  have hnodup : (fo ++ (List.range N).filter (fun i => !(fo.contains i))).Nodup := by
    rw [List.nodup_append]
    refine ⟨h, List.Nodup.filter _ (List.nodup_range N), ?_⟩
    intro x hxfo hxrem
    have hcon := List.of_mem_filter hxrem
    simp only [Bool.not_eq_true'] at hcon
    have : x ∉ fo := by simpa using hcon
    exact this hxfo
  refine List.perm_of_nodup_nodup_toFinset_eq hnodup (List.nodup_range N) ?_
  ext x
  simp only [List.toFinset_append, Finset.mem_union, List.mem_toFinset,
    List.mem_filter, List.mem_range, Bool.not_eq_true']
  constructor
  · rintro (hx | ⟨hx, -⟩)
    · exact finalOrder_mem_lt hx
    · exact hx
  · intro hx
    by_cases hmem : x ∈ fo
    · exact Or.inl hmem
    · refine Or.inr ⟨hx, ?_⟩
      simpa using hmem

/-! ### Per-line behavior of the loader -/

/-- Relaxing the upper level bound of the ordering invariant. -/
lemma orderedB_mono_N {ℓ N N' : Nat} {b : BDD} (h : N ≤ N')
    (hb : orderedB ℓ N b = true) : orderedB ℓ N' b = true := by
  induction b generalizing ℓ with
  | leaf c => rfl
  | node L lo hi ihlo ihhi =>
    rw [orderedB_node_iff] at hb ⊢
    exact ⟨hb.1, by omega, ihlo hb.2.2.1, ihhi hb.2.2.2⟩

/-- Only a `p cnf` header line can change the variable count: comment,
blank, `%` and clause lines leave `num_vars` untouched. -/
lemma parseLine_num_vars {st : DimacsData} {line : List Char} {st' : DimacsData}
    (h : parseLine st line = .ok st') :
    st'.num_vars = st.num_vars ∨ (strLine "p cnf").isPrefixOf (trimL line) = true := by
  rw [parseLine] at h
  split at h
  · cases h
    exact Or.inl rfl
  · split at h
    · split at h
      · split at h
        · cases h
          exact Or.inl rfl
        · cases h
      · cases h
        exact Or.inl rfl
    · split at h
      · next hp => exact Or.inr hp
      · split at h
        · cases h
          refine Or.inl ?_
          split <;> rfl
        · cases h
          exact Or.inl rfl

/-- A clause line containing an unconvertible token is skipped: the parse
state is unchanged (`except ValueError: pass`, line 29). -/
lemma parseLine_bad_clause_token (st : DimacsData) :
    parseLine st (strLine "1 x 0") = .ok st := rfl

/-- Appending a clause line with a malformed token to any input changes
nothing about the parse result. -/
lemma parse_dimacs_append_bad_clause (lines : List (List Char)) :
    parse_dimacs (lines ++ [strLine "1 x 0"]) = parse_dimacs lines := by
  rw [parse_dimacs, parse_dimacs, List.foldlM_append]
  cases h : List.foldlM parseLine ⟨0, [], none⟩ lines with
  | ok st => exact parseLine_bad_clause_token st
  | error e => rfl

/-! ### Skip semantics of the diagram builder -/

/-- Out-of-range literals contribute nothing to a clause's diagram: the
clause builds identically with them filtered away. -/
lemma clause_bdd_filter (N : Nat) (c : List Int) :
    clause_bdd N c =
      clause_bdd N (c.filter (fun lit => decide (0 ≤ |lit| - 1 ∧ |lit| - 1 < (N : Int)))) := by
  rw [clause_bdd, clause_bdd]
  suffices h : ∀ acc : BDD,
      c.foldl
        (fun acc lit =>
          let idx : Int := |lit| - 1
          if 0 ≤ idx ∧ idx < (N : Int) then
            bor acc (if 0 < lit then varB idx.toNat else bnot (varB idx.toNat))
          else acc) acc =
      (c.filter (fun lit => decide (0 ≤ |lit| - 1 ∧ |lit| - 1 < (N : Int)))).foldl
        (fun acc lit =>
          let idx : Int := |lit| - 1
          if 0 ≤ idx ∧ idx < (N : Int) then
            bor acc (if 0 < lit then varB idx.toNat else bnot (varB idx.toNat))
          else acc) acc from h (leaf false)
  induction c with
  | nil => intro acc; rfl
  | cons lit rest ih =>
    intro acc
    by_cases h : 0 ≤ |lit| - 1 ∧ |lit| - 1 < (N : Int)
    · rw [List.filter_cons_of_pos (by simpa using h)]
      simp only [List.foldl_cons, if_pos h]
      exact ih _
    · rw [List.filter_cons_of_neg (by simpa using h)]
      simp only [List.foldl_cons, if_neg h]
      exact ih _

/-- `_build_bdd` is insensitive to out-of-range literals: construction over
the raw clauses equals construction over the in-range-filtered clauses. -/
lemma build_bdd_filter (N : Nat) (clauses : List (List Int)) :
    build_bdd N clauses =
      build_bdd N (clauses.map
        (fun c => c.filter (fun lit => decide (0 ≤ |lit| - 1 ∧ |lit| - 1 < (N : Int))))) := by
  rw [build_bdd, build_bdd]
  suffices h : ∀ acc : BDD,
      clauses.foldl (fun phi c => band phi (clause_bdd N c)) acc =
      (clauses.map
        (fun c => c.filter (fun lit => decide (0 ≤ |lit| - 1 ∧ |lit| - 1 < (N : Int))))).foldl
        (fun phi c => band phi (clause_bdd N c)) acc from h (leaf true)
  induction clauses with
  | nil => intro acc; rfl
  | cons c rest ih =>
    intro acc
    simp only [List.map_cons, List.foldl_cons]
    rw [← clause_bdd_filter]
    exact ih _

/-- A satisfiable diagram over at least two variables always has at least one
satisfiable pairwise obligation (at the pair `(0, 1)`). -/
lemma pairUniverse_ne_nil {N : Nat} {phi : BDD} (hN : 2 ≤ N)
    (hord : orderedB 0 N phi = true) (hs : satisfiable phi = true) :
    pairUniverse N phi ≠ [] := by
  obtain ⟨a, ha⟩ := exists_eval_of_satisfiable hord hs
  have hres : eval (restrictBy phi ⟨0, a 0, 1, a 1⟩) a = true := by
    rw [eval_restrictBy]
    simp [ha]
  have hmem : (⟨0, a 0, 1, a 1⟩ : Obl) ∈ pairUniverse N phi :=
    mem_pairUniverse.mpr ⟨Nat.zero_lt_one, by simpa using hN, satisfiable_of_eval hres⟩
  exact List.ne_nil_of_mem hmem

/-- Stepping equation of the cover loop on a successful sample. -/
lemma coverLoop_cons_some (phi : BDD) (s : Nat → BDD → Option (Nat → Bool)) (fuel : Nat)
    (ob : Obl) (rest : List Obl) (cover : List (Nat → Bool)) (sol : Nat → Bool)
    (h : s fuel (restrictBy phi ob) = some sol) :
    coverLoop phi s (fuel + 1) (ob :: rest) cover =
      coverLoop phi s fuel ((ob :: rest).filter (fun p => !(covers sol p)))
        (cover ++ [sol]) := by
  rw [coverLoop, h]

/-- The cover loop with nothing left to cover returns the cover unchanged. -/
lemma coverLoop_nil (phi : BDD) (s : Nat → BDD → Option (Nat → Bool)) (fuel : Nat)
    (cover : List (Nat → Bool)) : coverLoop phi s fuel [] cover = (cover, []) := by
  cases fuel <;> rfl

/-! ## The claims -/

/-- Claim C1: for every satisfiable function built by the diagram builder, the
single-draw sampler returns each satisfying total assignment with probability
exactly `1 / model count` (branching with the cofactor-count bias and filling
never-tested variables with independent fair bits), and a non-satisfying
assignment with probability `0`. -/
theorem C1_sampler_uniform (N : Nat) (clauses : List (List Int)) (a : Nat → Bool)
    (h : eval (build_bdd N clauses) a = true) :
    samplerProb N 0 (build_bdd N clauses) a =
      ((sat_count N 0 (build_bdd N clauses) : ℚ))⁻¹ ∧
    (∀ a' : Nat → Bool, eval (build_bdd N clauses) a' = false →
      samplerProb N 0 (build_bdd N clauses) a' = 0) :=
  ⟨samplerProb_uniform (orderedB_build_bdd N clauses) h,
    fun _ h' => samplerProb_eq_zero h'⟩

/-- Witness for C1 at the worked 2-variable example and the satisfying
assignment `(x1, x2) = (1, 0)`. -/
theorem C1_witness :
    eval (build_bdd 2 [[1, 2], [-1, -2]]) (fun i => i == 0) = true ∧
    samplerProb 2 0 (build_bdd 2 [[1, 2], [-1, -2]]) (fun i => i == 0) =
      ((sat_count 2 0 (build_bdd 2 [[1, 2], [-1, -2]]) : ℚ))⁻¹ :=
  ⟨by decide, (C1_sampler_uniform 2 [[1, 2], [-1, -2]] (fun i => i == 0) (by decide)).1⟩

/-- Counterexample to claim C2 as stated: on the satisfiable one-variable
formula with no clauses, the model count is `2` and the function is not the
always-false constant, yet the pairwise interaction count is `0` and the cover
universe (hence the cover set) is empty — the chain of equivalences fails for
fewer than two variables. -/
theorem C2_counterexample :
    sat_count 1 0 (build_bdd 1 []) = 2 ∧
    build_bdd 1 [] ≠ leaf false ∧
    report_iv_pairwise_interactions 1 (build_bdd 1 []) = 0 ∧
    pairUniverse 1 (build_bdd 1 []) = [] ∧
    report_v_pairwise_cover_size 1 (build_bdd 1 []) (fun _ _ => none) = 0 := by
  refine ⟨by decide, by decide, by decide, by decide, by decide⟩

/-- Claim C2 as amended: `valid_configuration_count = 0` iff the built
function is the always-false constant; an always-false function makes every
analysis vacuous (zero interactions, empty universe, zero cover size, sampler
returns nothing) without error; and for formulas over at least two variables
the count is zero iff the interaction count is zero and the universe empty. -/
theorem C2_amended (N : Nat) (clauses : List (List Int)) :
    (sat_count N 0 (build_bdd N clauses) = 0 ↔ build_bdd N clauses = leaf false) ∧
    (build_bdd N clauses = leaf false →
      report_iv_pairwise_interactions N (build_bdd N clauses) = 0 ∧
      pairUniverse N (build_bdd N clauses) = [] ∧
      (∀ sampler, report_v_pairwise_cover_size N (build_bdd N clauses) sampler = 0) ∧
      (∀ rand fill, sample_one_uniform N rand fill (build_bdd N clauses) = none)) ∧
    (2 ≤ N →
      (sat_count N 0 (build_bdd N clauses) = 0 ↔
        (report_iv_pairwise_interactions N (build_bdd N clauses) = 0 ∧
          pairUniverse N (build_bdd N clauses) = []))) := by
  have hord := orderedB_build_bdd N clauses
  have hred := reducedB_build_bdd N clauses
  refine ⟨⟨?_, ?_⟩, ?_, ?_⟩
  · intro h0
    exact eq_leaf_false_of_not_satisfiable hred ((sat_count_eq_zero_iff hord).mp h0)
  · intro h
    rw [h]
    rfl
  · intro hfalse
    refine ⟨?_, ?_, ?_, ?_⟩
    · rw [hfalse]; exact report_iv_false N
    · rw [hfalse]; exact pairUniverse_false N
    · intro sampler
      rw [hfalse]
      simp [report_v_pairwise_cover_size, pairUniverse_false]
    · intro rand fill
      rw [hfalse]
      exact sample_one_uniform_of_not_satisfiable rfl
  · intro hN
    constructor
    · intro h0
      have hfalse :=
        eq_leaf_false_of_not_satisfiable hred ((sat_count_eq_zero_iff hord).mp h0)
      rw [hfalse]
      exact ⟨report_iv_false N, pairUniverse_false N⟩
    · rintro ⟨-, huniv⟩
      by_contra h0
      have hsat : satisfiable (build_bdd N clauses) = true := by
        cases hsb : satisfiable (build_bdd N clauses) with
        | false => exact absurd ((sat_count_eq_zero_iff hord).mpr hsb) h0
        | true => rfl
      exact pairUniverse_ne_nil hN hord hsat huniv

/-- Counterexample to claim C4 as stated: on a file declaring 1 variable whose
single clause contains the literal `2`, the parsed variable count is `1`, not
`max(1, 2) = 2` as the spec's effective-count rule demands — and the parsed
literal `2` lies out of range of the count actually used. -/
theorem C4_counterexample :
    parse_dimacs [strLine "p cnf 1 1", strLine "2 0"] =
      .ok ⟨1, [[2]], none⟩ ∧
    effective_var_count_spec ⟨1, [[2]], none⟩ = 2 ∧
    (1 : Int) ≠ 2 := by
  refine ⟨by decide, by decide, by decide⟩

/-- Claim C4 as amended: the variable count used downstream is exactly the
declared header count — only a `p cnf` line can change it, and literal
magnitudes never do. -/
theorem C4_amended (st : DimacsData) (line : List Char) (st' : DimacsData)
    (h : parseLine st line = .ok st') :
    st'.num_vars = st.num_vars ∨ (strLine "p cnf").isPrefixOf (trimL line) = true :=
  parseLine_num_vars h

/-- Witness for C4 at a concrete clause line, which leaves the count at 0. -/
theorem C4_witness :
    parseLine ⟨0, [], none⟩ (strLine "1 2 0") = .ok ⟨0, [[1, 2]], none⟩ ∧
    ((⟨0, [[1, 2]], none⟩ : DimacsData).num_vars = (⟨0, [], none⟩ : DimacsData).num_vars ∨
      (strLine "p cnf").isPrefixOf (trimL (strLine "1 2 0")) = true) :=
  ⟨by decide, C4_amended ⟨0, [], none⟩ (strLine "1 2 0") ⟨0, [[1, 2]], none⟩ (by decide)⟩

/-- Counterexample to claim C5 as stated: on the empty formula over 51
variables every pairwise combination is satisfiable, and the program counts
`5100 = 4·C(51,2)` interactions (and as many cover obligations) — more than
the `4·C(50,2) = 4900` possible if the analysis were restricted to the 50 most
frequent variables as claimed.  The code iterates over all variable pairs. -/
theorem C5_counterexample :
    report_iv_pairwise_interactions 51 (build_bdd 51 []) = 5100 ∧
    (pairUniverse 51 (build_bdd 51 [])).length = 5100 ∧
    4 * Nat.choose 50 2 = 4900 ∧ (4900 : Nat) < 5100 := by
  have h : report_iv_pairwise_interactions 51 (build_bdd 51 []) = 5100 := by decide
  refine ⟨h, ?_, by decide, by decide⟩
  rw [← report_iv_eq_pairUniverse_length]
  exact h

/-- Claim C5 as amended: both the interaction count of report (iv) and the
cover universe of report (v) range over ALL unordered variable pairs (there is
no restriction to the 50 most frequent variables and no frequency data at
all), four polarity combinations per pair, each counted or collected exactly
when satisfiable in conjunction with the formula; the two enumerations agree,
so the work is one satisfiability test per pair-polarity combination,
`O(N²)` in total. -/
theorem C5_amended (N : Nat) (phi : BDD) :
    report_iv_pairwise_interactions N phi = (pairUniverse N phi).length ∧
    (∀ ob : Obl, ob ∈ pairUniverse N phi ↔
      ob.i < ob.j ∧ ob.j < N ∧ satisfiable (restrictBy phi ob) = true) :=
  ⟨report_iv_eq_pairUniverse_length N phi, fun _ => mem_pairUniverse⟩

/-- Counterexample to claim C6 as stated: the empty input — from which no
variable count is derivable — does NOT fail with a ParseError; parsing
succeeds with a variable count of 0. -/
theorem C6_counterexample :
    parse_dimacs [] = .ok ⟨0, [], none⟩ := by decide

/-- Claim C6 as amended: loading never signals a ParseError on empty or
degenerate input — it succeeds with variable count 0 — and a clause line with
an unconvertible token is silently skipped (nothing is counted), leaving the
parse of any input unchanged. -/
theorem C6_amended :
    parse_dimacs [] = .ok ⟨0, [], none⟩ ∧
    (∀ st, parseLine st (strLine "1 x 0") = .ok st) ∧
    (∀ lines, parse_dimacs (lines ++ [strLine "1 x 0"]) = parse_dimacs lines) :=
  ⟨by decide, parseLine_bad_clause_token, parse_dimacs_append_bad_clause⟩

/-- Claim C7: the collection loop of report (iii) performs at most
`20·k + 100` single-draw attempts, never gathers more than `k` samples (all
distinct), and either reaches exactly `k` unique samples or stops only on
budget exhaustion, returning the partial sample set with its actual size —
it is a total function, never an error. -/
theorem C7_urs_budget (k : Nat) (draw : Nat → Option (List Bool)) :
    (ursSamples k draw).2 ≤ k * 20 + 100 ∧
    (ursSamples k draw).1.length ≤ k ∧
    ((ursSamples k draw).1.length = k ∨ (ursSamples k draw).2 = k * 20 + 100) ∧
    (ursSamples k draw).1.Nodup := by
  obtain ⟨h1, h2, h3, h4⟩ := ursRun_spec k draw (k * 20 + 100) [] 0 (by simp)
  rw [ursSamples]
  refine ⟨by simpa using h2, h1, ?_, h4 List.nodup_nil⟩
  rcases h3 with h | h
  · exact Or.inl h
  · exact Or.inr (by simpa using h)

/-- Counterexample to claim C8 as stated: with two variables and the
suggested-order comment `c vo 1 1` (a duplicate id), the assembled order is
`[0, 0, 1]` — not a permutation of `[0, 2)`: the code filters out-of-range
ids but never deduplicates. -/
theorem C8_counterexample :
    finalOrder 2 [1, 1] = [0, 0, 1] ∧ ¬ (finalOrder 2 [1, 1]).Perm (List.range 2) := by
  refine ⟨by decide, ?_⟩
  intro h
  exact absurd h.length_eq (by decide)

/-- Claim C8 as amended: whenever the in-range entries of the suggested order
are duplicate-free (out-of-range and missing ids are always tolerated), the
assembled order is a total permutation of `[0, N)`. -/
theorem C8_amended (N : Nat) (vo : List Int)
    (h : ((vo.filter (fun v => decide (1 ≤ v) && decide (v ≤ (N : Int)))).map
      (fun v => (v - 1).toNat)).Nodup) :
    (finalOrder N vo).Perm (List.range N) :=
  finalOrder_perm N vo h

/-- Witness for C8: the suggested order `[3, 1]` over three variables (id 2
missing, none duplicated) yields a permutation of `[0, 3)`. -/
theorem C8_witness :
    (((([3, 1] : List Int).filter (fun v => decide (1 ≤ v) && decide (v ≤ (3 : Int)))).map
      (fun v => (v - 1).toNat)).Nodup) ∧
    (finalOrder 3 [3, 1]).Perm (List.range 3) :=
  ⟨by decide, C8_amended 3 [3, 1] (by decide)⟩

/-- Counterexample to claim C9 as stated: building over two variables with
the out-of-range literal `3` present yields a state identical in every respect
to building without it — the literal is skipped but NO diagnostic is recorded
anywhere (the spec-worded variant that does count diagnostics distinguishes
the two inputs, the code cannot). -/
theorem C9_counterexample :
    build_bdd 2 [[1, 3]] = build_bdd 2 [[1]] ∧
    (build_bdd_spec_diag 2 [[1, 3]]).2 = 1 ∧
    (build_bdd_spec_diag 2 [[1]]).2 = 0 := by
  refine ⟨by decide, by decide, by decide⟩

/-- Claim C9 as amended: a clause literal whose variable index lies at or
beyond the declared count is skipped silently — construction completes over
the remaining in-range literals exactly as if the offending literals were
absent, producing a well-formed ordered diagram; no diagnostic is recorded. -/
theorem C9_amended (N : Nat) (clauses : List (List Int)) :
    build_bdd N clauses =
      build_bdd N (clauses.map
        (fun c => c.filter (fun lit => decide (0 ≤ |lit| - 1 ∧ |lit| - 1 < (N : Int))))) ∧
    orderedB 0 N (build_bdd N clauses) = true :=
  ⟨build_bdd_filter N clauses, orderedB_build_bdd N clauses⟩

/-- Claim C10: in the cover-building loop, every configuration sampled from a
restriction satisfies the restriction — hence both fixed literals — so the
targeted obligation is always removed on success (and on failure it is
dropped); with fuel equal to the universe size the loop therefore ends with
the uncovered set empty, and every witness in the cover satisfies the original
formula. -/
theorem C10_cover_loop (N : Nat) (phi : BDD)
    (sampler : Nat → BDD → Option (Nat → Bool))
    (hs : ∀ (n : Nat) (ob : Obl) (a : Nat → Bool),
      sampler n (restrictBy phi ob) = some a → eval (restrictBy phi ob) a = true) :
    (coverLoop phi sampler (pairUniverse N phi).length (pairUniverse N phi) []).2 = [] ∧
    (∀ c ∈ (coverLoop phi sampler (pairUniverse N phi).length (pairUniverse N phi) []).1,
      eval phi c = true) ∧
    (∀ (n : Nat) (ob : Obl) (a : Nat → Bool),
      sampler n (restrictBy phi ob) = some a →
        covers a ob = true ∧ eval phi a = true) := by
  obtain ⟨h1, h2⟩ := coverLoop_spec hs (pairUniverse N phi).length (pairUniverse N phi) []
    (Nat.le_refl _) (by simp)
  refine ⟨h1, h2, ?_⟩
  intro n ob a ha
  exact ⟨covers_of_eval_restrictBy (hs n ob a ha),
    eval_phi_of_eval_restrictBy (hs n ob a ha)⟩

/-- Witness for C10: the worked 2-variable example with the program's own
sampler (zero random draws, constant-false fill). -/
theorem C10_witness :
    (coverLoop (build_bdd 2 [[1, 2], [-1, -2]])
      (fun _ b => sample_one_uniform 2 (fun _ _ => 0) (fun _ => false) b)
      (pairUniverse 2 (build_bdd 2 [[1, 2], [-1, -2]])).length
      (pairUniverse 2 (build_bdd 2 [[1, 2], [-1, -2]])) []).2 = [] ∧
    (∀ c ∈ (coverLoop (build_bdd 2 [[1, 2], [-1, -2]])
      (fun _ b => sample_one_uniform 2 (fun _ _ => 0) (fun _ => false) b)
      (pairUniverse 2 (build_bdd 2 [[1, 2], [-1, -2]])).length
      (pairUniverse 2 (build_bdd 2 [[1, 2], [-1, -2]])) []).1,
      eval (build_bdd 2 [[1, 2], [-1, -2]]) c = true) ∧
    (∀ (n : Nat) (ob : Obl) (a : Nat → Bool),
      (fun _ b => sample_one_uniform 2 (fun _ _ => 0) (fun _ => false) b) n
          (restrictBy (build_bdd 2 [[1, 2], [-1, -2]]) ob) = some a →
        covers a ob = true ∧ eval (build_bdd 2 [[1, 2], [-1, -2]]) a = true) :=
  C10_cover_loop 2 (build_bdd 2 [[1, 2], [-1, -2]])
    (fun _ b => sample_one_uniform 2 (fun _ _ => 0) (fun _ => false) b)
    (fun _ ob a h =>
      @sample_one_uniform_sound 2 (max 2 (max (ob.i + 1) (ob.j + 1))) (fun _ _ => 0)
        (fun _ => false) (restrictBy (build_bdd 2 [[1, 2], [-1, -2]]) ob) a 0
        (orderedB_restrictBy
          (orderedB_mono_N (Nat.le_max_left _ _) (orderedB_build_bdd 2 [[1, 2], [-1, -2]]))
          (by omega) (by omega)) h)

/-- Claim C3: the worked 2-variable example `(x1 ∨ x2) ∧ (¬x1 ∨ ¬x2)` has
exactly 2 satisfying assignments — `(1,0)` and `(0,1)`, while `(1,1)` and
`(0,0)` falsify it — pairwise interaction count exactly 2, positive node
count, and, whatever the random draws of the sampler, a greedy cover of size
exactly 2. -/
theorem C3_worked_example (rand : Nat → Nat → Nat → Nat) (fill : Nat → Nat → Bool)
    (hrand : ∀ n d t, 0 < t → rand n d t < t) :
    sat_count 2 0 (build_bdd 2 [[1, 2], [-1, -2]]) = 2 ∧
    eval (build_bdd 2 [[1, 2], [-1, -2]]) (fun i => i == 0) = true ∧
    eval (build_bdd 2 [[1, 2], [-1, -2]]) (fun i => i == 1) = true ∧
    eval (build_bdd 2 [[1, 2], [-1, -2]]) (fun _ => true) = false ∧
    eval (build_bdd 2 [[1, 2], [-1, -2]]) (fun _ => false) = false ∧
    report_iv_pairwise_interactions 2 (build_bdd 2 [[1, 2], [-1, -2]]) = 2 ∧
    0 < node_count (build_bdd 2 [[1, 2], [-1, -2]]) ∧
    report_v_pairwise_cover_size 2 (build_bdd 2 [[1, 2], [-1, -2]])
      (fun n b => sample_one_uniform 2 (rand n) (fill n) b) = 2 := by
  refine ⟨by decide, by decide, by decide, by decide, by decide, by decide, by decide, ?_⟩
  have hord1 : orderedB 0 2
      (restrictBy (build_bdd 2 [[1, 2], [-1, -2]]) ⟨0, false, 1, true⟩) = true := by decide
  have hsat1 : satisfiable
      (restrictBy (build_bdd 2 [[1, 2], [-1, -2]]) ⟨0, false, 1, true⟩) = true := by decide
  have hsome1 : (sample_one_uniform 2 (rand 1) (fill 1)
      (restrictBy (build_bdd 2 [[1, 2], [-1, -2]]) ⟨0, false, 1, true⟩)).isSome = true :=
    sample_one_uniform_isSome (hrand 1) hord1 hsat1
  obtain ⟨a1, ha1⟩ := Option.isSome_iff_exists.mp hsome1
  have heval1 := sample_one_uniform_sound hord1 ha1
  rw [eval_restrictBy] at heval1
  simp only [Bool.and_eq_true, beq_iff_eq] at heval1
  obtain ⟨⟨-, h10⟩, h11⟩ := heval1
  have hcov11 : covers a1 ⟨0, false, 1, true⟩ = true := by simp [covers, h10, h11]
  have hcov12 : covers a1 ⟨0, true, 1, false⟩ = false := by simp [covers, h10]
  have hord2 : orderedB 0 2
      (restrictBy (build_bdd 2 [[1, 2], [-1, -2]]) ⟨0, true, 1, false⟩) = true := by decide
  have hsat2 : satisfiable
      (restrictBy (build_bdd 2 [[1, 2], [-1, -2]]) ⟨0, true, 1, false⟩) = true := by decide
  have hsome2 : (sample_one_uniform 2 (rand 0) (fill 0)
      (restrictBy (build_bdd 2 [[1, 2], [-1, -2]]) ⟨0, true, 1, false⟩)).isSome = true :=
    sample_one_uniform_isSome (hrand 0) hord2 hsat2
  obtain ⟨a2, ha2⟩ := Option.isSome_iff_exists.mp hsome2
  have heval2 := sample_one_uniform_sound hord2 ha2
  rw [eval_restrictBy] at heval2
  simp only [Bool.and_eq_true, beq_iff_eq] at heval2
  obtain ⟨⟨-, h20⟩, h21⟩ := heval2
  have hcov22 : covers a2 ⟨0, true, 1, false⟩ = true := by simp [covers, h20, h21]
  have hU : pairUniverse 2 (build_bdd 2 [[1, 2], [-1, -2]]) =
      [⟨0, false, 1, true⟩, ⟨0, true, 1, false⟩] := by decide
  simp only [report_v_pairwise_cover_size, hU]
  rw [if_neg (by simp)]
  show (coverLoop (build_bdd 2 [[1, 2], [-1, -2]])
      (fun n b => sample_one_uniform 2 (rand n) (fill n) b) (1 + 1)
      [⟨0, false, 1, true⟩, ⟨0, true, 1, false⟩] []).1.length = 2
  rw [coverLoop_cons_some (build_bdd 2 [[1, 2], [-1, -2]])
      (fun n b => sample_one_uniform 2 (rand n) (fill n) b) 1 ⟨0, false, 1, true⟩
      [⟨0, true, 1, false⟩] [] a1 ha1]
  have hfil1 : ([(⟨0, false, 1, true⟩ : Obl), ⟨0, true, 1, false⟩].filter
      (fun p => !(covers a1 p))) = [⟨0, true, 1, false⟩] := by
    rw [List.filter_cons_of_neg (by simp [hcov11]),
      List.filter_cons_of_pos (by simp [hcov12]), List.filter_nil]
  rw [hfil1]
  show (coverLoop (build_bdd 2 [[1, 2], [-1, -2]])
      (fun n b => sample_one_uniform 2 (rand n) (fill n) b) (0 + 1)
      [⟨0, true, 1, false⟩] ([] ++ [a1])).1.length = 2
  rw [coverLoop_cons_some (build_bdd 2 [[1, 2], [-1, -2]])
      (fun n b => sample_one_uniform 2 (rand n) (fill n) b) 0 ⟨0, true, 1, false⟩
      [] ([] ++ [a1]) a2 ha2]
  have hfil2 : ([(⟨0, true, 1, false⟩ : Obl)].filter (fun p => !(covers a2 p))) = [] := by
    rw [List.filter_cons_of_neg (by simp [hcov22]), List.filter_nil]
  rw [hfil2, coverLoop_nil]
  rfl

/-- Witness for C3 with the concrete all-zero random source and constant
fill. -/
theorem C3_witness :
    sat_count 2 0 (build_bdd 2 [[1, 2], [-1, -2]]) = 2 ∧
    eval (build_bdd 2 [[1, 2], [-1, -2]]) (fun i => i == 0) = true ∧
    eval (build_bdd 2 [[1, 2], [-1, -2]]) (fun i => i == 1) = true ∧
    eval (build_bdd 2 [[1, 2], [-1, -2]]) (fun _ => true) = false ∧
    eval (build_bdd 2 [[1, 2], [-1, -2]]) (fun _ => false) = false ∧
    report_iv_pairwise_interactions 2 (build_bdd 2 [[1, 2], [-1, -2]]) = 2 ∧
    0 < node_count (build_bdd 2 [[1, 2], [-1, -2]]) ∧
    report_v_pairwise_cover_size 2 (build_bdd 2 [[1, 2], [-1, -2]])
      (fun n b => sample_one_uniform 2 ((fun _ _ _ => 0) n) ((fun _ _ => false) n) b) = 2 :=
  C3_worked_example (fun _ _ _ => 0) (fun _ _ => false) (fun _ _ t ht => ht)
